import Mathlib

/-!
Shallow embedding of the MSTwillio WhatsApp bridge (src/app.py and
src/twillioexplanation.py) and proofs about its behavior: the phone-number
normalization `format_number`, the conversation find-or-create step, the
participant ensure step, and one tick of the message polling loop.

Strings are modelled as Lean `String`s (lists of characters); Python's
`str.replace(pat, "")` and `str.strip()` are embedded on `List Char`.
Provider calls are modelled by their inputs and outputs: list calls become
explicit list arguments, create calls become elements of a returned list of
issued calls.
-/

namespace MSTwillio

/-- The WhatsApp channel-prefix token `"whatsapp:"`, as a character list. -/
def wtok : List Char := ['w', 'h', 'a', 't', 's', 'a', 'p', 'p', ':']

/-- Characters removed by Python's `str.strip()` (the ASCII whitespace
characters; Python also strips some further Unicode whitespace, which no
address in this program contains). -/
def isPySpace (c : Char) : Bool :=
  c = ' ' || c = '\t' || c = '\n' || c = '\r' || c = '\x0b' || c = '\x0c'

/-- Python `str.strip()`: drop leading and trailing whitespace. -/
def pyStrip (l : List Char) : List Char :=
  ((l.dropWhile isPySpace).reverse.dropWhile isPySpace).reverse

/-- Helper for `pyRemove`. While `skip > 0` the scanner is inside an already
matched occurrence and discards characters; at `skip = 0` it tests for an
occurrence of `wtok` at the current position, exactly as Python's
left-to-right, non-overlapping `str.replace(pat, "")` scan does (no
rescanning of already emitted output). -/
def removeAux : Nat → List Char → List Char
  | _, [] => []
  | skip + 1, _ :: cs => removeAux skip cs
  | 0, c :: cs =>
    if wtok.isPrefixOf (c :: cs) then removeAux (wtok.length - 1) cs
    else c :: removeAux 0 cs

/-- Python `number.replace("whatsapp:", "")`: remove every non-overlapping
occurrence of the token, scanning left to right. -/
def pyRemove (l : List Char) : List Char := removeAux 0 l

/-- `format_number` from the source: `number.replace("whatsapp:", "").strip()`
followed by the f-string `f"whatsapp:{number}"`. -/
def format_number (number : String) : String :=
  let n := pyStrip (pyRemove number.data)
  ⟨wtok ++ n⟩

/-- The normalization as the spec describes it for claim C5: strip the
channel-prefix token only when it occurs at the leading position, trim
surrounding whitespace, then prepend exactly one token; occurrences of the
token elsewhere in the string are left in place. Written from the spec's
words, to be compared with `format_number`. -/
def normalize_spec (number : String) : String :=
  let l := number.data
  let stripped := if wtok.isPrefixOf l then l.drop wtok.length else l
  ⟨wtok ++ pyStrip stripped⟩

/-- Does `wtok` occur anywhere in `l` as a contiguous block? -/
def containsTok : List Char → Bool
  | [] => false
  | c :: cs => wtok.isPrefixOf (c :: cs) || containsTok cs

/-- `k` concatenated copies of the channel-prefix token. -/
def tokPow : Nat → List Char
  | 0 => []
  | k + 1 => wtok ++ tokPow k

/-- The string has 0 or 1 leading occurrences of the channel-prefix token
(it does not begin with two copies of the token). -/
def validStart (l : List Char) : Bool := !((wtok ++ wtok).isPrefixOf l)

/-- The list carries exactly one leading occurrence of the channel-prefix
token: it begins with the token but not with two copies of it. -/
def startsOnce (l : List Char) : Bool :=
  wtok.isPrefixOf l && !((wtok ++ wtok).isPrefixOf l)

/-- A message as fetched by `conversation.messages.list()`: provider id,
author, body; the list is ordered oldest to newest, so the last element is
the newest. -/
structure Message where
  sid : String
  author : String
  body : String
deriving DecidableEq

/-- The arguments of a `conversation.messages.create(author=..., body=...)`
call issued by the loop. -/
structure MessageCreate where
  author : String
  body : String
deriving DecidableEq

/-- The fixed automated reply body from the source. -/
def reply_body : String := "✅ Message received. I am the server."

/-- One tick of the polling loop body (`poll_messages` in
twillioexplanation.py, the `__main__` loop in app.py): inspect the fetched
list; when it is non-empty and the last message's sid differs from the
cursor and its author equals the user's number, create the fixed reply
(author `"system"`) and advance the cursor. Returns the new cursor and the
create calls issued this tick. -/
def tick (user_number : String) (last_sid : Option String) (messages : List Message) :
    Option String × List MessageCreate :=
  match messages.getLast? with
  | none => (last_sid, [])
  | some last_msg =>
    if some last_msg.sid ≠ last_sid ∧ last_msg.author = user_number then
      (some last_msg.sid, [{ author := "system", body := reply_body }])
    else
      (last_sid, [])

/-- One tick with a fallible reply-create call. When the reaction fires and
the create call raises (`createOk = false`), execution aborts before the
`last_sid = last_msg.sid` assignment, so the error value carries the
cursor as it stands at the point of the exception. -/
def tickF (user_number : String) (last_sid : Option String) (messages : List Message)
    (createOk : Bool) : Except (Option String) (Option String × List MessageCreate) :=
  match messages.getLast? with
  | none => .ok (last_sid, [])
  | some last_msg =>
    if some last_msg.sid ≠ last_sid ∧ last_msg.author = user_number then
      if createOk then .ok (some last_msg.sid, [{ author := "system", body := reply_body }])
      else .error last_sid
    else
      .ok (last_sid, [])

/-- Run the polling loop over a trace of fetched message lists, threading
the cursor through the ticks. -/
def runCursor (user_number : String) (last_sid : Option String) :
    List (List Message) → Option String
  | [] => last_sid
  | msgs :: rest => runCursor user_number (tick user_number last_sid msgs).1 rest

/-- The create calls issued by two consecutive ticks that both fetch the
same message list. -/
def twoTicksReplies (user_number : String) (last_sid : Option String)
    (messages : List Message) : List MessageCreate :=
  (tick user_number last_sid messages).2 ++
    (tick user_number (tick user_number last_sid messages).1 messages).2

/-- A conversation as listed by `service.conversations.list()`. -/
structure Conversation where
  sid : String
  friendly_name : String
deriving DecidableEq

/-- `get_or_create_conversation`: pick the first listed conversation whose
friendly name is `'Friendly Conversation'`; otherwise create one.
`fresh_sid` models the provider-assigned id of a newly created
conversation. Returns the conversation and the number of create calls
issued. -/
def get_or_create_conversation (conversations : List Conversation)
    (fresh_sid : String) : Conversation × Nat :=
  match conversations.find? (fun c => c.friendly_name == "Friendly Conversation") with
  | some convo => (convo, 0)
  | none => ({ sid := fresh_sid, friendly_name := "Friendly Conversation" }, 1)

/-- A participant as listed by `conversation.participants.list()`; `address`
is its `messaging_binding['address']`. -/
structure Participant where
  address : String
deriving DecidableEq

/-- `ensure_participant`: when no listed participant's bound address equals
`phone_number`, issue one create call binding `phone_number` with proxy
`proxy_number`. Returns the list of issued create calls as
(address, proxy address) pairs. -/
def ensure_participant (participants : List Participant)
    (phone_number proxy_number : String) : List (String × String) :=
  let already_exists := participants.any (fun p => p.address == phone_number)
  if !already_exists then [(phone_number, proxy_number)] else []

/-! Helper lemmas about the normalization embedding. -/

lemma isPrefixOf_eq_true_iff {l1 l2 : List Char} :
    l1.isPrefixOf l2 = true ↔ l1 <+: l2 :=
  List.isPrefixOf_iff_prefix

lemma isPrefixOf_append_self (l t : List Char) : l.isPrefixOf (l ++ t) = true :=
  isPrefixOf_eq_true_iff.mpr ⟨t, rfl⟩

lemma removeAux_skip (l rest : List Char) :
    removeAux l.length (l ++ rest) = removeAux 0 rest := by
  induction l with
  | nil => rfl
  | cons c cs ih => simpa only [List.length_cons, List.cons_append, removeAux] using ih

lemma pyRemove_tok_append (l : List Char) : pyRemove (wtok ++ l) = pyRemove l := by
  have h : wtok.isPrefixOf (wtok ++ l) = true := isPrefixOf_append_self wtok l
  show removeAux 0 (wtok ++ l) = removeAux 0 l
  rw [show removeAux 0 (wtok ++ l) =
    if wtok.isPrefixOf (wtok ++ l) then
      removeAux 8 (['h', 'a', 't', 's', 'a', 'p', 'p', ':'] ++ l)
    else 'w' :: removeAux 0 (['h', 'a', 't', 's', 'a', 'p', 'p', ':'] ++ l) from rfl]
  rw [if_pos h]
  exact removeAux_skip ['h', 'a', 't', 's', 'a', 'p', 'p', ':'] l

lemma containsTok_cons (c : Char) (cs : List Char) :
    containsTok (c :: cs) = (wtok.isPrefixOf (c :: cs) || containsTok cs) := rfl

lemma pyRemove_eq_self {l : List Char} (h : containsTok l = false) : pyRemove l = l := by
  induction l with
  | nil => rfl
  | cons c cs ih =>
    rw [containsTok_cons, Bool.or_eq_false_iff] at h
    show removeAux 0 (c :: cs) = c :: cs
    rw [show removeAux 0 (c :: cs) =
      if wtok.isPrefixOf (c :: cs) then removeAux (wtok.length - 1) cs
      else c :: removeAux 0 cs from rfl]
    rw [if_neg (by simp [h.1])]
    exact congrArg (c :: ·) (ih h.2)

lemma containsTok_of_isPrefixOf {l : List Char} (h : wtok.isPrefixOf l = true) :
    containsTok l = true := by
  cases l with
  | nil => exact absurd h (by decide)
  | cons c cs => simp [containsTok_cons, h]

lemma containsTok_append_left {l1 l2 : List Char} (h : containsTok (l1 ++ l2) = false) :
    containsTok l2 = false := by
  induction l1 with
  | nil => exact h
  | cons c cs ih =>
    rw [List.cons_append, containsTok_cons, Bool.or_eq_false_iff] at h
    exact ih h.2

lemma containsTok_front {l1 l2 : List Char} (hp : l1 <+: l2)
    (h : containsTok l2 = false) : containsTok l1 = false := by
  induction l1 generalizing l2 with
  | nil => rfl
  | cons c cs ih =>
    obtain ⟨t, rfl⟩ := hp
    rw [List.cons_append, containsTok_cons, Bool.or_eq_false_iff] at h
    rw [containsTok_cons, Bool.or_eq_false_iff]
    refine ⟨?_, ih ⟨t, rfl⟩ h.2⟩
    cases hx : wtok.isPrefixOf (c :: cs) with
    | false => rfl
    | true =>
      exfalso
      have h1 : wtok <+: (c :: cs) := isPrefixOf_eq_true_iff.mp hx
      have h2 : wtok <+: (c :: cs) ++ t := h1.trans ⟨t, rfl⟩
      have h3 : wtok.isPrefixOf ((c :: cs) ++ t) = true := isPrefixOf_eq_true_iff.mpr h2
      rw [List.cons_append] at h3
      rw [h.1] at h3
      cases h3

lemma containsTok_mid {l1 s t : List Char} (h : containsTok (s ++ l1 ++ t) = false) :
    containsTok l1 = false :=
  containsTok_front ⟨t, rfl⟩ (containsTok_append_left (by rwa [List.append_assoc] at h))

lemma pyStrip_mid (l : List Char) : ∃ s t, l = s ++ pyStrip l ++ t := by
  obtain ⟨s, hs⟩ := List.dropWhile_suffix (l := l) isPySpace
  obtain ⟨u, hu⟩ := List.dropWhile_suffix (l := (l.dropWhile isPySpace).reverse) isPySpace
  refine ⟨s, u.reverse, ?_⟩
  have hA : l.dropWhile isPySpace = pyStrip l ++ u.reverse := by
    have h2 := congrArg List.reverse hu
    simpa [pyStrip] using h2.symm
  rw [List.append_assoc, ← hA]
  exact hs.symm

lemma dropWhile_dropWhile (p : Char → Bool) (l : List Char) :
    List.dropWhile p (List.dropWhile p l) = List.dropWhile p l := by
  induction l with
  | nil => rfl
  | cons c cs ih =>
    cases h : p c
    · simp [List.dropWhile_cons, h]
    · simp [List.dropWhile_cons, h, ih]

lemma dropWhile_head_false (p : Char → Bool) (l : List Char) :
    List.dropWhile p l = [] ∨
      ∃ c cs, List.dropWhile p l = c :: cs ∧ p c = false := by
  induction l with
  | nil => exact Or.inl rfl
  | cons c cs ih =>
    cases h : p c
    · exact Or.inr ⟨c, cs, by simp [List.dropWhile_cons, h], h⟩
    · simpa [List.dropWhile_cons, h] using ih

lemma pyStrip_idem (l : List Char) : pyStrip (pyStrip l) = pyStrip l := by
  have hsuf : (l.dropWhile isPySpace).reverse.dropWhile isPySpace <:+
      (l.dropWhile isPySpace).reverse := List.dropWhile_suffix _
  have hpre : pyStrip l <+: l.dropWhile isPySpace := by
    have h2 := hsuf.reverse
    rwa [List.reverse_reverse] at h2
  have hBr : (pyStrip l).reverse = (l.dropWhile isPySpace).reverse.dropWhile isPySpace := by
    simp [pyStrip]
  have hstep : List.dropWhile isPySpace (pyStrip l) = pyStrip l := by
    cases hBcase : pyStrip l with
    | nil => rfl
    | cons b bs =>
      rcases dropWhile_head_false isPySpace l with h0 | ⟨c, cs, hcc, hpc⟩
      · rw [hBcase, h0] at hpre
        obtain ⟨t, ht⟩ := hpre
        simp at ht
      · rw [hBcase, hcc] at hpre
        obtain ⟨t, ht⟩ := hpre
        rw [List.cons_append] at ht
        injection ht with h1 _
        have hb : isPySpace b = false := by rw [h1]; exact hpc
        simp [List.dropWhile_cons, hb]
  show ((((pyStrip l).dropWhile isPySpace).reverse).dropWhile isPySpace).reverse = pyStrip l
  rw [hstep, hBr, dropWhile_dropWhile, ← hBr, List.reverse_reverse]

lemma containsTok_pyStrip {l : List Char} (h : containsTok l = false) :
    containsTok (pyStrip l) = false := by
  obtain ⟨s, t, hst⟩ := pyStrip_mid l
  rw [hst] at h
  exact containsTok_mid h

lemma pyRemove_tokPow (k : Nat) (r : List Char) :
    pyRemove (tokPow k ++ r) = pyRemove r := by
  induction k with
  | zero => rfl
  | succ n ih =>
    show pyRemove ((wtok ++ tokPow n) ++ r) = pyRemove r
    rw [List.append_assoc, pyRemove_tok_append, ih]

lemma format_number_canon (k : Nat) (r : List Char) (h : containsTok r = false) :
    format_number ⟨tokPow k ++ r⟩ = ⟨wtok ++ pyStrip r⟩ := by
  show (⟨wtok ++ pyStrip (pyRemove (tokPow k ++ r))⟩ : String) = _
  rw [pyRemove_tokPow, pyRemove_eq_self h]

lemma format_number_ne_system (raw : String) : format_number raw ≠ "system" := by
  intro h
  have h2 : wtok ++ pyStrip (pyRemove raw.data) = "system".data := congrArg String.data h
  rw [show ("system" : String).data = ['s', 'y', 's', 't', 'e', 'm'] from rfl] at h2
  rw [show wtok = 'w' :: ['h', 'a', 't', 's', 'a', 'p', 'p', ':'] from rfl] at h2
  rw [List.cons_append] at h2
  injection h2 with h3 _
  exact absurd h3 (by decide)

/-! Helper lemma about the polling tick. -/

lemma tick_cases (u : String) (cur : Option String) (msgs : List Message) :
    (tick u cur msgs = (cur, []) ∧
      ∀ m, msgs.getLast? = some m → ¬(some m.sid ≠ cur ∧ m.author = u)) ∨
    (∃ m, msgs.getLast? = some m ∧ some m.sid ≠ cur ∧ m.author = u ∧
      tick u cur msgs = (some m.sid, [{ author := "system", body := reply_body }])) := by
  cases hm : msgs.getLast? with
  | none =>
    left
    exact ⟨by simp [tick, hm], fun m hm2 => Option.noConfusion hm2⟩
  | some m =>
    by_cases hc : some m.sid ≠ cur ∧ m.author = u
    · right
      exact ⟨m, rfl, hc.1, hc.2, by simp [tick, hm, hc.1, hc.2]⟩
    · left
      refine ⟨by simp [tick, hm, hc], ?_⟩
      intro m' hm'
      injection hm' with he
      rw [← he]
      exact hc

/-! Claim theorems. -/

/-- C1: on each tick of the poll loop, a reply-create call is issued iff the
fetched message list is non-empty, its last element's sid differs from the
poll cursor, and its author equals the configured external address; whenever
a reply is created it is authored "system" with the fixed body
`reply_body`, and the cursor is set to the last element's sid. -/
theorem C1_poll_tick_reacts_iff (user_number : String) (last_sid : Option String)
    (messages : List Message) :
    ((tick user_number last_sid messages).2 ≠ [] ↔
      ∃ m, messages.getLast? = some m ∧ some m.sid ≠ last_sid ∧
        m.author = user_number) ∧
    (∀ m, messages.getLast? = some m → some m.sid ≠ last_sid →
      m.author = user_number →
      tick user_number last_sid messages =
        (some m.sid, [{ author := "system", body := reply_body }])) := by
  rcases tick_cases user_number last_sid messages with ⟨ht, hno⟩ | ⟨m, hm, hne, ha, ht⟩
  · constructor
    · constructor
      · intro hout
        rw [ht] at hout
        simp at hout
      · rintro ⟨m, hm, hne, ha⟩
        exact absurd ⟨hne, ha⟩ (hno m hm)
    · intro m hm hne ha
      exact absurd ⟨hne, ha⟩ (hno m hm)
  · constructor
    · constructor
      · intro _
        exact ⟨m, hm, hne, ha⟩
      · intro _
        rw [ht]
        simp
    · intro m' hm' hne' ha'
      have he := hm.symm.trans hm'
      injection he with he2
      rw [← he2]
      exact ht

/-- C1 witness: a concrete reacting tick, via `C1_poll_tick_reacts_iff`. -/
theorem C1_witness :
    tick "whatsapp:+15551230000" none
        [{ sid := "IM1", author := "whatsapp:+15551230000", body := "hi" }] =
      (some "IM1", [{ author := "system", body := reply_body }]) :=
  (C1_poll_tick_reacts_iff "whatsapp:+15551230000" none
      [{ sid := "IM1", author := "whatsapp:+15551230000", body := "hi" }]).2
    { sid := "IM1", author := "whatsapp:+15551230000", body := "hi" }
    rfl (by decide) rfl

/-- C2 (counterexample): the input "whatswhatsapp:app:" has no leading
occurrence of the channel-prefix token, so it has 0 occurrences of the token
at the start and is a valid input in the claim's sense, yet normalization is
not idempotent on it: removing all occurrences of "whatsapp:" from it leaves
"whatsapp:" behind, so one application of `format_number` yields
"whatsapp:whatsapp:" and a second yields "whatsapp:". -/
theorem C2_counterexample :
    validStart ("whatswhatsapp:app:".data) = true ∧
    format_number "whatswhatsapp:app:" = "whatsapp:whatsapp:" ∧
    format_number (format_number "whatswhatsapp:app:") = "whatsapp:" ∧
    format_number (format_number "whatswhatsapp:app:") ≠
      format_number "whatswhatsapp:app:" :=
  ⟨by decide, rfl, rfl, by decide⟩

/-- C2 (amended): `format_number` is idempotent on every input consisting of
any number of leading channel-prefix tokens followed by a remainder that
contains no occurrence of the token — in particular on every raw,
pre-prefixed, or double-prefixed address. -/
theorem C2_amended_idempotent (k : Nat) (r : List Char)
    (h : containsTok r = false) :
    format_number (format_number ⟨tokPow k ++ r⟩) =
      format_number ⟨tokPow k ++ r⟩ := by
  have h2 : format_number ⟨wtok ++ pyStrip r⟩ = ⟨wtok ++ pyStrip (pyStrip r)⟩ :=
    format_number_canon 1 (pyStrip r) (containsTok_pyStrip h)
  rw [format_number_canon k r h, h2, pyStrip_idem]

/-- C2 amended witness: idempotence on a concrete double-prefixed address. -/
theorem C2_amended_witness :
    containsTok ("+15551230000".data) = false ∧
    format_number (format_number ⟨tokPow 2 ++ "+15551230000".data⟩) =
      format_number ⟨tokPow 2 ++ "+15551230000".data⟩ :=
  ⟨by decide, C2_amended_idempotent 2 ("+15551230000".data) (by decide)⟩

/-- C5 (counterexample): `format_number` does not leave occurrences of the
channel-prefix token that sit away from the leading position in place: on
"a whatsapp:b" it removes the interior token, while the normalization the
spec describes (strip at the leading position only) keeps it. -/
theorem C5_counterexample :
    format_number "a whatsapp:b" = "whatsapp:a b" ∧
    normalize_spec "a whatsapp:b" = "whatsapp:a whatsapp:b" ∧
    format_number "a whatsapp:b" ≠ normalize_spec "a whatsapp:b" :=
  ⟨rfl, rfl, by decide⟩

/-- C5 (amended): for every input string, `format_number` removes every
non-overlapping occurrence of the channel-prefix token, scanning left to
right (a leading occurrence is dropped, a non-matching head character is
kept and the scan continues), then trims surrounding whitespace, and then
prepends exactly one token. Occurrences of the token away from the leading
position are removed, not left in place. -/
theorem C5_amended_steps (number : String) (l cs : List Char) (c : Char) :
    format_number number = ⟨wtok ++ pyStrip (pyRemove number.data)⟩ ∧
    pyRemove (wtok ++ l) = pyRemove l ∧
    (wtok.isPrefixOf (c :: cs) = false → pyRemove (c :: cs) = c :: pyRemove cs) ∧
    pyRemove [] = [] := by
  refine ⟨rfl, pyRemove_tok_append l, ?_, rfl⟩
  intro h
  show removeAux 0 (c :: cs) = c :: removeAux 0 cs
  rw [show removeAux 0 (c :: cs) =
    if wtok.isPrefixOf (c :: cs) then removeAux (wtok.length - 1) cs
    else c :: removeAux 0 cs from rfl]
  rw [if_neg (by simp [h])]

/-- C5 amended witness: the keep-head equation at a concrete input. -/
theorem C5_amended_witness :
    pyRemove ['a', 'b'] = 'a' :: pyRemove ['b'] :=
  (C5_amended_steps "x" [] ['b'] 'a').2.2.1 (by decide)

/-- C8 (counterexample): the input "whatswhatsapp:app:" has 0 occurrences of
the channel-prefix token at the start, yet the output of `format_number` on
it does not carry exactly one instance of the prefix at its start — it
starts with two copies of the token. -/
theorem C8_counterexample :
    validStart ("whatswhatsapp:app:".data) = true ∧
    startsOnce ((format_number "whatswhatsapp:app:").data) = false :=
  ⟨by decide, by decide⟩

/-- C8 (amended): on every input consisting of any number of leading
channel-prefix tokens followed by a remainder containing no occurrence of
the token (raw, pre-prefixed, double-prefixed, and beyond), the output of
`format_number` carries exactly one instance of the channel prefix at its
start. -/
theorem C8_amended_single_leading_token (k : Nat) (r : List Char)
    (h : containsTok r = false) :
    startsOnce ((format_number ⟨tokPow k ++ r⟩).data) = true := by
  rw [format_number_canon k r h]
  show startsOnce (wtok ++ pyStrip r) = true
  have h1 : wtok.isPrefixOf (wtok ++ pyStrip r) = true := isPrefixOf_append_self _ _
  have h2 : (wtok ++ wtok).isPrefixOf (wtok ++ pyStrip r) = false := by
    cases hx : (wtok ++ wtok).isPrefixOf (wtok ++ pyStrip r) with
    | false => rfl
    | true =>
      exfalso
      obtain ⟨t, ht⟩ := isPrefixOf_eq_true_iff.mp hx
      rw [List.append_assoc] at ht
      have h4 : wtok ++ t = pyStrip r := List.append_cancel_left ht
      have h5 : containsTok (pyStrip r) = true := by
        rw [← h4]
        exact containsTok_of_isPrefixOf (isPrefixOf_append_self _ _)
      rw [containsTok_pyStrip h] at h5
      cases h5
  simp [startsOnce, h1, h2]

/-- C8 amended witness: a concrete pre-prefixed address normalizes to a
single leading token. -/
theorem C8_amended_witness :
    containsTok ("+14155550100".data) = false ∧
    startsOnce ((format_number ⟨tokPow 1 ++ "+14155550100".data⟩).data) = true :=
  ⟨by decide, C8_amended_single_leading_token 1 ("+14155550100".data) (by decide)⟩

lemma find?_decomp {α : Type} (p : α → Bool) (l : List α) (c : α)
    (h : l.find? p = some c) :
    p c = true ∧ ∃ l1 l2, l = l1 ++ c :: l2 ∧ ∀ x ∈ l1, p x = false := by
  induction l with
  | nil => cases h
  | cons a as ih =>
    cases hp : p a with
    | true =>
      rw [List.find?_cons, hp] at h
      injection h with he
      rw [← he]
      exact ⟨hp, [], as, rfl, by intro x hx; cases hx⟩
    | false =>
      rw [List.find?_cons, hp] at h
      obtain ⟨hc, l1, l2, hdec, hl1⟩ := ih h
      refine ⟨hc, a :: l1, l2, by rw [List.cons_append, hdec], ?_⟩
      intro x hx
      rcases List.mem_cons.mp hx with rfl | hx2
      · exact hp
      · exact hl1 x hx2

/-- C3: for every listed conversation collection,
`get_or_create_conversation` returns the first conversation in provider
order whose friendly name exactly equals "Friendly Conversation" when one
exists, issuing no create call; when no match exists it issues exactly one
create call and returns the created conversation carrying that name. -/
theorem C3_find_or_create (convs : List Conversation) (fresh_sid : String) :
    ((∃ c ∈ convs, c.friendly_name = "Friendly Conversation") →
      (get_or_create_conversation convs fresh_sid).2 = 0 ∧
      (get_or_create_conversation convs fresh_sid).1.friendly_name =
        "Friendly Conversation" ∧
      ∃ l1 l2, convs = l1 ++ (get_or_create_conversation convs fresh_sid).1 :: l2 ∧
        ∀ c ∈ l1, c.friendly_name ≠ "Friendly Conversation") ∧
    ((∀ c ∈ convs, c.friendly_name ≠ "Friendly Conversation") →
      (get_or_create_conversation convs fresh_sid).2 = 1 ∧
      (get_or_create_conversation convs fresh_sid).1 =
        { sid := fresh_sid, friendly_name := "Friendly Conversation" }) := by
  cases hf : convs.find? (fun c => c.friendly_name == "Friendly Conversation") with
  | none =>
    have hall := List.find?_eq_none.mp hf
    constructor
    · rintro ⟨c, hc, he⟩
      exact absurd (by simp [he]) (hall c hc)
    · intro _
      simp [get_or_create_conversation, hf]
  | some c0 =>
    obtain ⟨hc0, l1, l2, hdecomp, hl1⟩ := find?_decomp _ convs c0 hf
    have hres : get_or_create_conversation convs fresh_sid = (c0, 0) := by
      simp [get_or_create_conversation, hf]
    constructor
    · intro _
      rw [hres]
      refine ⟨rfl, by simpa using hc0, l1, l2, hdecomp, ?_⟩
      intro c hc hce
      have hfalse := hl1 c hc
      rw [hce] at hfalse
      simp at hfalse
    · intro hnone
      exfalso
      exact hnone c0 (List.mem_of_find?_eq_some hf) (by simpa using hc0)

/-- C3 witness: with a pre-seeded list containing matches, the first match
is returned and no create call is issued. -/
theorem C3_witness :
    (get_or_create_conversation
        [{ sid := "CH0", friendly_name := "Other" },
         { sid := "CH1", friendly_name := "Friendly Conversation" },
         { sid := "CH2", friendly_name := "Friendly Conversation" }] "NEW").2 = 0 ∧
    (get_or_create_conversation
        [{ sid := "CH0", friendly_name := "Other" },
         { sid := "CH1", friendly_name := "Friendly Conversation" },
         { sid := "CH2", friendly_name := "Friendly Conversation" }]
      "NEW").1.friendly_name = "Friendly Conversation" ∧
    ∃ l1 l2,
      [{ sid := "CH0", friendly_name := "Other" },
       { sid := "CH1", friendly_name := "Friendly Conversation" },
       { sid := "CH2", friendly_name := "Friendly Conversation" }] =
        l1 ++ (get_or_create_conversation
          [{ sid := "CH0", friendly_name := "Other" },
           { sid := "CH1", friendly_name := "Friendly Conversation" },
           { sid := "CH2", friendly_name := "Friendly Conversation" }] "NEW").1 :: l2 ∧
      ∀ c ∈ l1, c.friendly_name ≠ "Friendly Conversation" :=
  (C3_find_or_create
      [{ sid := "CH0", friendly_name := "Other" },
       { sid := "CH1", friendly_name := "Friendly Conversation" },
       { sid := "CH2", friendly_name := "Friendly Conversation" }] "NEW").1
    ⟨{ sid := "CH1", friendly_name := "Friendly Conversation" }, by simp, rfl⟩

/-- C4: `ensure_participant` issues zero create calls when some listed
participant's bound address equals the target address by exact string
comparison, and exactly one create call binding the address with the given
proxy address otherwise. -/
theorem C4_ensure_participant (ps : List Participant) (phone proxy : String) :
    ((∃ p ∈ ps, p.address = phone) → ensure_participant ps phone proxy = []) ∧
    ((∀ p ∈ ps, p.address ≠ phone) →
      ensure_participant ps phone proxy = [(phone, proxy)]) := by
  constructor
  · rintro ⟨p, hp, he⟩
    have hany : ps.any (fun p => p.address == phone) = true :=
      List.any_eq_true.mpr ⟨p, hp, by simp [he]⟩
    simp [ensure_participant, hany]
  · intro h
    have hany : ps.any (fun p => p.address == phone) = false := by
      cases hx : ps.any (fun p => p.address == phone) with
      | false => rfl
      | true =>
        exfalso
        obtain ⟨p, hp, he⟩ := List.any_eq_true.mp hx
        exact h p hp (by simpa using he)
    simp [ensure_participant, hany]

/-- C4 witness: a matching bound address suppresses the create call. -/
theorem C4_witness :
    ensure_participant [{ address := "whatsapp:+15551230000" }]
      "whatsapp:+15551230000" "whatsapp:+14155238886" = [] :=
  (C4_ensure_participant [{ address := "whatsapp:+15551230000" }]
      "whatsapp:+15551230000" "whatsapp:+14155238886").1
    ⟨{ address := "whatsapp:+15551230000" }, by simp, rfl⟩

/-- C6 (counterexample): running two consecutive ticks that both fetch the
empty message list, from the initial cursor state, issues zero
reply-create calls in total, not exactly one as the claim states for every
message list. -/
theorem C6_counterexample :
    (twoTicksReplies "whatsapp:+15551230000" none []).length = 0 ∧
    (twoTicksReplies "whatsapp:+15551230000" none []).length ≠ 1 :=
  ⟨rfl, by decide⟩

/-- C6 (amended): two consecutive ticks fetching the same message list issue
at most one reply-create call in total, and exactly one iff the list is
non-empty, its last element's sid differs from the starting cursor, and its
author equals the external address. -/
theorem C6_amended_at_most_once (u : String) (cur : Option String)
    (msgs : List Message) :
    (twoTicksReplies u cur msgs).length ≤ 1 ∧
    ((twoTicksReplies u cur msgs).length = 1 ↔
      ∃ m, msgs.getLast? = some m ∧ some m.sid ≠ cur ∧ m.author = u) := by
  rcases tick_cases u cur msgs with ⟨ht, hno⟩ | ⟨m, hm, hne, ha, ht⟩
  · have end1 : (tick u cur msgs).1 = cur := by rw [ht]
    have end2 : (tick u cur msgs).2 = [] := by rw [ht]
    have h2 : twoTicksReplies u cur msgs = [] := by
      unfold twoTicksReplies
      rw [end2, end1, end2]
      rfl
    constructor
    · rw [h2]
      decide
    · rw [h2]
      constructor
      · intro h0
        simp at h0
      · rintro ⟨m, hm, hne, ha⟩
        exact absurd ⟨hne, ha⟩ (hno m hm)
  · have end1 : (tick u cur msgs).1 = some m.sid := by rw [ht]
    have end2 : (tick u cur msgs).2 =
        [{ author := "system", body := reply_body }] := by rw [ht]
    have hsecond : (tick u (some m.sid) msgs).2 = [] := by
      rcases tick_cases u (some m.sid) msgs with ⟨ht2, _⟩ | ⟨m2, hm2, hne2, ha2, ht2⟩
      · rw [ht2]
      · have he := hm.symm.trans hm2
        injection he with he2
        rw [← he2] at hne2
        exact absurd rfl hne2
    have h2 : twoTicksReplies u cur msgs =
        [{ author := "system", body := reply_body }] := by
      unfold twoTicksReplies
      rw [end2, end1, hsecond]
      rfl
    constructor
    · rw [h2]
      decide
    · rw [h2]
      constructor
      · intro _
        exact ⟨m, hm, hne, ha⟩
      · intro _
        rfl

/-- C7: a tick never reacts to a message authored by the loop's own
automated "system" identity: with the user's number produced by
`format_number` (as `main` does), a fetched list whose last element has
author "system" leaves the cursor unchanged and issues no create call, from
every cursor state. -/
theorem C7_ignores_system_author (raw : String) (cur : Option String)
    (msgs : List Message) (m : Message) (hm : msgs.getLast? = some m)
    (ha : m.author = "system") :
    tick (format_number raw) cur msgs = (cur, []) := by
  rcases tick_cases (format_number raw) cur msgs with ⟨ht, _⟩ | ⟨m2, hm2, _, ha2, _⟩
  · exact ht
  · exfalso
    have he := hm.symm.trans hm2
    injection he with he2
    rw [← he2, ha] at ha2
    exact format_number_ne_system raw ha2.symm

/-- C7 witness: a concrete system-authored last message is ignored. -/
theorem C7_witness :
    tick (format_number "+15551230000") none
      [{ sid := "IM9", author := "system", body := reply_body }] = (none, []) :=
  C7_ignores_system_author "+15551230000" none
    [{ sid := "IM9", author := "system", body := reply_body }]
    { sid := "IM9", author := "system", body := reply_body } rfl rfl

/-- C9: the poll cursor is advanced only after the reply message has been
successfully created: when the create call raises during a reacting tick,
the loop's local cursor still holds its previous value; and with a
succeeding create call the fallible tick agrees with `tick`. -/
theorem C9_cursor_on_failed_create (u : String) (cur : Option String)
    (msgs : List Message) (ok : Bool) :
    (∀ e, tickF u cur msgs ok = .error e → e = cur) ∧
    tickF u cur msgs true = .ok (tick u cur msgs) := by
  constructor
  · intro e he
    cases hm : msgs.getLast? with
    | none =>
      simp [tickF, hm] at he
    | some m =>
      simp only [tickF, hm] at he
      by_cases hc : some m.sid ≠ cur ∧ m.author = u
      · rw [if_pos hc] at he
        cases ok with
        | true => simp at he
        | false =>
          simp only [Bool.false_eq_true, if_false] at he
          injection he with he2
          exact he2.symm
      · rw [if_neg hc] at he
        cases he
  · cases hm : msgs.getLast? with
    | none => simp [tickF, tick, hm]
    | some m =>
      by_cases hc : some m.sid ≠ cur ∧ m.author = u
      · simp only [tickF, tick, hm, if_pos hc, if_true]
      · simp only [tickF, tick, hm, if_neg hc]

/-- C9 witness: a concrete failing create leaves the cursor at its previous
value `none`. -/
theorem C9_witness :
    tickF "whatsapp:+15551230000" none
        [{ sid := "IM1", author := "whatsapp:+15551230000", body := "hi" }]
        false = .error none ∧
    (none : Option String) = none :=
  ⟨rfl,
    (C9_cursor_on_failed_create "whatsapp:+15551230000" none
        [{ sid := "IM1", author := "whatsapp:+15551230000", body := "hi" }]
        false).1 none rfl⟩

lemma run_cursor_origin (u : String) :
    ∀ (traces : List (List Message)) (cur : Option String),
      runCursor u cur traces = cur ∨
      ∃ msgs ∈ traces, ∃ m c₀, msgs.getLast? = some m ∧ m.author = u ∧
        runCursor u cur traces = some m.sid ∧
        tick u c₀ msgs = (some m.sid, [{ author := "system", body := reply_body }]) := by
  intro traces
  induction traces with
  | nil => exact fun cur => Or.inl rfl
  | cons msgs rest ih =>
    intro cur
    have hrun : runCursor u cur (msgs :: rest) =
        runCursor u (tick u cur msgs).1 rest := rfl
    rcases ih (tick u cur msgs).1 with h | ⟨msgs', hmem, m, c₀, hm, ha, hc, ht⟩
    · rcases tick_cases u cur msgs with ⟨ht1, _⟩ | ⟨m, hm1, _, ha1, ht1⟩
      · left
        rw [hrun, h, ht1]
      · right
        refine ⟨msgs, List.mem_cons_self msgs rest, m, cur, hm1, ha1, ?_, ht1⟩
        rw [hrun, h, ht1]
    · right
      exact ⟨msgs', List.mem_cons_of_mem msgs hmem, m, c₀, hm, ha,
        by rw [hrun]; exact hc, ht⟩

/-- C10: at every reachable state of the poll loop (started from cursor
"none" and run over any trace of fetched message lists, with the user
number produced by `format_number`), the cursor is either still "none" or
equals the sid of the last message of one of the fetched lists, a message
whose author equals the external address (hence not "system") and for
which the reacting tick issued the fixed "system" reply. -/
theorem C10_cursor_invariant (raw : String) (traces : List (List Message)) :
    runCursor (format_number raw) none traces = none ∨
    ∃ msgs ∈ traces, ∃ m c₀, msgs.getLast? = some m ∧
      m.author = format_number raw ∧ m.author ≠ "system" ∧
      runCursor (format_number raw) none traces = some m.sid ∧
      tick (format_number raw) c₀ msgs =
        (some m.sid, [{ author := "system", body := reply_body }]) := by
  rcases run_cursor_origin (format_number raw) traces none with
    h | ⟨msgs, hmem, m, c₀, hm, ha, hc, ht⟩
  · exact Or.inl h
  · right
    refine ⟨msgs, hmem, m, c₀, hm, ha, ?_, hc, ht⟩
    rw [ha]
    exact format_number_ne_system raw

end MSTwillio
